/-
Verification of the nexusTransfer core (peer discovery & registry, message
framing codec, chunked file-transfer engine) against its specification.

The Rust source in `src/transfer/mod.rs` and `src/network/mod.rs` is embedded
shallowly: bytes are `Nat`s (with explicit range facts where they matter),
byte strings are `List Nat`, the tokio `HashMap`s become association lists,
the filesystem becomes an explicit `Path → Option (List Nat)` map, and the
fallible Rust functions return `Except`.  Fresh UUIDs (`Uuid::new_v4()`)
are passed in as explicit parameters, making the nondeterminism visible.
-/
import Mathlib

set_option autoImplicit false

namespace NexusTransfer

/-! ## Little-endian / big-endian byte views of machine integers

`bincode`'s legacy configuration (used by `bincode::serialize` /
`bincode::deserialize` in bincode 1.x) writes fixed-width integers
little-endian: `u32` as 4 bytes, `u64` as 8 bytes.  The network framing in
`Network::send_message` writes the length prefix big-endian
(`len.to_be_bytes()`). -/

/-- The `w` little-endian bytes of `v` (i.e. of `v % 256 ^ w`). -/
def toLEBytes : Nat → Nat → List Nat
  | 0, _ => []
  | w + 1, v => (v % 256) :: toLEBytes w (v / 256)

/-- Read a little-endian byte list back as a number. -/
def fromLEBytes : List Nat → Nat
  | [] => 0
  | b :: bs => b + 256 * fromLEBytes bs

/-- The `w` big-endian bytes of `v` (used only by the wire-frame length
prefix `len.to_be_bytes()` in `Network::send_message`). -/
def toBEBytes (w v : Nat) : List Nat := (toLEBytes w v).reverse

@[simp] theorem length_toLEBytes (w v : Nat) : (toLEBytes w v).length = w := by
  induction w generalizing v with
  | zero => rfl
  | succ w ih => simp [toLEBytes, ih]

theorem fromLEBytes_toLEBytes (w v : Nat) :
    fromLEBytes (toLEBytes w v) = v % 256 ^ w := by
  induction w generalizing v with
  | zero => simp [toLEBytes, fromLEBytes, Nat.mod_one]
  | succ w ih =>
    simp only [toLEBytes, fromLEBytes, ih]
    rw [pow_succ, Nat.mul_comm (256 ^ w) 256, Nat.mod_mul]

/-! ## UTF-8 validity

Rust `String`s are valid UTF-8 by construction; bincode's `String`
deserializer and `OsStr::to_str` both check validity.  This is the standard
byte-level UTF-8 well-formedness test. -/

/-- Is `b` a UTF-8 continuation byte (`0x80 ..= 0xBF`)? -/
def isCont (b : Nat) : Bool := 0x80 ≤ b && b ≤ 0xBF

/-- Byte-level UTF-8 validity of a byte list. -/
def validUtf8 : List Nat → Bool
  | [] => true
  | b :: bs =>
    if b ≤ 0x7F then validUtf8 bs
    else
      match bs with
      | [] => false
      | c1 :: bs1 =>
        if 0xC2 ≤ b && b ≤ 0xDF then isCont c1 && validUtf8 bs1
        else
          match bs1 with
          | [] => false
          | c2 :: bs2 =>
            if b = 0xE0 then (0xA0 ≤ c1 && c1 ≤ 0xBF) && isCont c2 && validUtf8 bs2
            else if (0xE1 ≤ b && b ≤ 0xEC) || b = 0xEE || b = 0xEF then
              isCont c1 && isCont c2 && validUtf8 bs2
            else if b = 0xED then (0x80 ≤ c1 && c1 ≤ 0x9F) && isCont c2 && validUtf8 bs2
            else
              match bs2 with
              | [] => false
              | c3 :: bs3 =>
                if b = 0xF0 then
                  (0x90 ≤ c1 && c1 ≤ 0xBF) && isCont c2 && isCont c3 && validUtf8 bs3
                else if 0xF1 ≤ b && b ≤ 0xF3 then
                  isCont c1 && isCont c2 && isCont c3 && validUtf8 bs3
                else if b = 0xF4 then
                  (0x80 ≤ c1 && c1 ≤ 0x8F) && isCont c2 && isCont c3 && validUtf8 bs3
                else false

/-! ## The data model (`src/transfer/mod.rs` lines 13–28) -/

/-- A 128-bit UUID, as its 16 raw bytes (`uuid::Uuid`). -/
structure Uuid where
  bytes : List Nat
deriving DecidableEq

/-- Well-formedness of a UUID: `u.bytes` really is 16 bytes. -/
def Uuid.wf (u : Uuid) : Prop := u.bytes.length = 16 ∧ ∀ b ∈ u.bytes, b < 256

instance (u : Uuid) : Decidable u.wf := by unfold Uuid.wf; infer_instance

/-- The six-variant `Message` enum.  Rust `String` fields are modelled as
their UTF-8 byte lists, `u64` fields as `Nat`, `Vec<u8>` as `List Nat`. -/
inductive Message where
  | Text (content : List Nat)
  | FileOffer (name : List Nat) (size : Nat) (id : Uuid)
  | FileAccept (id : Uuid)
  | FileReject (id : Uuid)
  | FileChunk (id : Uuid) (offset : Nat) (data : List Nat)
  | FileComplete (id : Uuid)
deriving DecidableEq

/-- Constructibility of `m` as a Rust value: `String` fields are valid UTF-8
(hence < `u64::MAX` long in any real process, which we record explicitly),
`u64` fields fit in 64 bits, `Vec<u8>` fields are bytes, UUIDs are 16
bytes. -/
def Message.wf : Message → Prop
  | .Text c => validUtf8 c = true ∧ c.length < 2 ^ 64
  | .FileOffer name size id =>
      (validUtf8 name = true ∧ name.length < 2 ^ 64) ∧ size < 2 ^ 64 ∧ id.wf
  | .FileAccept id => id.wf
  | .FileReject id => id.wf
  | .FileChunk id offset data =>
      id.wf ∧ offset < 2 ^ 64 ∧ (∀ b ∈ data, b < 256) ∧ data.length < 2 ^ 64
  | .FileComplete id => id.wf

instance (m : Message) : Decidable m.wf := by cases m <;> unfold Message.wf <;> infer_instance

/-! ## The frame codec (`Message::encode` / `Message::decode`,
`src/transfer/mod.rs` lines 30–38)

`bincode::serialize` (legacy config): enum variant index as `u32` (4 bytes
LE); `String` and `serialize_bytes` (the `uuid` serde impl) as `u64` byte
length followed by the bytes; `u64` as 8 bytes LE; `Vec<u8>` as `u64`
length followed by the bytes.  `bincode::deserialize` reads the same
layout, checks UTF-8 validity for `String`, checks the 16-byte length for
`Uuid`, rejects out-of-range variant indices, and tolerates trailing
bytes. -/

/-- A length-prefixed byte field, as bincode lays out `String`, `Vec<u8>`
and `serialize_bytes` payloads. -/
def encodeBytesField (bs : List Nat) : List Nat :=
  toLEBytes 8 bs.length ++ bs

/-- Function `Message::encode` (bincode serialization; infallible on the closed
variant set, so modelled total). -/
def Message.encode : Message → List Nat
  | .Text content => toLEBytes 4 0 ++ encodeBytesField content
  | .FileOffer name size id =>
      toLEBytes 4 1 ++ encodeBytesField name ++ toLEBytes 8 size ++
        encodeBytesField id.bytes
  | .FileAccept id => toLEBytes 4 2 ++ encodeBytesField id.bytes
  | .FileReject id => toLEBytes 4 3 ++ encodeBytesField id.bytes
  | .FileChunk id offset data =>
      toLEBytes 4 4 ++ encodeBytesField id.bytes ++ toLEBytes 8 offset ++
        encodeBytesField data
  | .FileComplete id => toLEBytes 4 5 ++ encodeBytesField id.bytes

/-- Read exactly `n` bytes, returning them and the remainder. -/
def readBytes (n : Nat) (input : List Nat) : Option (List Nat × List Nat) :=
  if n ≤ input.length then some (input.take n, input.drop n) else none

/-- Read a `w`-byte little-endian unsigned integer. -/
def readU (w : Nat) (input : List Nat) : Option (Nat × List Nat) :=
  match readBytes w input with
  | some (bs, rest) => some (fromLEBytes bs, rest)
  | none => none

/-- Read a `u64`-length-prefixed byte field. -/
def readBytesField (input : List Nat) : Option (List Nat × List Nat) :=
  match readU 8 input with
  | some (n, rest) => readBytes n rest
  | none => none

/-- Read a bincode `String`: a length-prefixed field that must be valid
UTF-8. -/
def readStringField (input : List Nat) : Option (List Nat × List Nat) :=
  match readBytesField input with
  | some (bs, rest) => if validUtf8 bs then some (bs, rest) else none
  | none => none

/-- Read a serde-serialized `Uuid`: a length-prefixed byte field whose
length must be 16 (`Uuid::from_slice`). -/
def readUuid (input : List Nat) : Option (Uuid × List Nat) :=
  match readBytesField input with
  | some (bs, rest) => if bs.length = 16 then some (⟨bs⟩, rest) else none
  | none => none

/-- Function `Message::decode` (bincode deserialization). -/
def Message.decode (input : List Nat) : Option Message :=
  match readU 4 input with
  | none => none
  | some (tag, r0) =>
    if tag = 0 then
      match readStringField r0 with
      | some (content, _) => some (.Text content)
      | none => none
    else if tag = 1 then
      match readStringField r0 with
      | some (name, r1) =>
        match readU 8 r1 with
        | some (size, r2) =>
          match readUuid r2 with
          | some (id, _) => some (.FileOffer name size id)
          | none => none
        | none => none
      | none => none
    else if tag = 2 then
      match readUuid r0 with
      | some (id, _) => some (.FileAccept id)
      | none => none
    else if tag = 3 then
      match readUuid r0 with
      | some (id, _) => some (.FileReject id)
      | none => none
    else if tag = 4 then
      match readUuid r0 with
      | some (id, r1) =>
        match readU 8 r1 with
        | some (offset, r2) =>
          match readBytesField r2 with
          | some (data, _) => some (.FileChunk id offset data)
          | none => none
        | none => none
      | none => none
    else if tag = 5 then
      match readUuid r0 with
      | some (id, _) => some (.FileComplete id)
      | none => none
    else none

/-! ## Round-trip lemmas for the codec -/

theorem readBytes_append (l r : List Nat) : readBytes l.length (l ++ r) = some (l, r) := by
  simp [readBytes]

theorem readU_append (w v : Nat) (rest : List Nat) :
    readU w (toLEBytes w v ++ rest) = some (v % 256 ^ w, rest) := by
  have h := readBytes_append (toLEBytes w v) rest
  rw [length_toLEBytes] at h
  simp [readU, h, fromLEBytes_toLEBytes]

theorem pow256_eq : (256 : Nat) ^ 8 = 2 ^ 64 := by norm_num

theorem readBytesField_append (bs rest : List Nat) (h : bs.length < 2 ^ 64) :
    readBytesField (encodeBytesField bs ++ rest) = some (bs, rest) := by
  unfold readBytesField encodeBytesField
  rw [List.append_assoc, readU_append, pow256_eq, Nat.mod_eq_of_lt h]
  exact readBytes_append bs rest

theorem readStringField_append (bs rest : List Nat) (hlen : bs.length < 2 ^ 64)
    (hval : validUtf8 bs = true) :
    readStringField (encodeBytesField bs ++ rest) = some (bs, rest) := by
  simp [readStringField, readBytesField_append bs rest hlen, hval]

theorem readUuid_append (u : Uuid) (rest : List Nat) (h : u.bytes.length = 16) :
    readUuid (encodeBytesField u.bytes ++ rest) = some (u, rest) := by
  have hlen : u.bytes.length < 2 ^ 64 := by rw [h]; norm_num
  simp [readUuid, readBytesField_append u.bytes rest hlen, h]

theorem readBytesField_encode (bs : List Nat) (h : bs.length < 2 ^ 64) :
    readBytesField (encodeBytesField bs) = some (bs, []) := by
  have h2 := readBytesField_append bs [] h
  rwa [List.append_nil] at h2

theorem readStringField_encode (bs : List Nat) (hlen : bs.length < 2 ^ 64)
    (hval : validUtf8 bs = true) :
    readStringField (encodeBytesField bs) = some (bs, []) := by
  have h2 := readStringField_append bs [] hlen hval
  rwa [List.append_nil] at h2

theorem readUuid_encode (u : Uuid) (h : u.bytes.length = 16) :
    readUuid (encodeBytesField u.bytes) = some (u, []) := by
  have h2 := readUuid_append u [] h
  rwa [List.append_nil] at h2

/-- C1: for every constructible `Message` value `m`,
`Message::decode (Message::encode m) = m`: the bincode codec round-trips on
all six variants with arbitrary field contents. -/
theorem message_decode_encode (m : Message) (hwf : m.wf) :
    Message.decode m.encode = some m := by
  cases m with
  | Text content =>
    obtain ⟨hval, hlen⟩ := hwf
    simp [Message.encode, Message.decode, readU_append,
      readStringField_encode content hlen hval]
  | FileOffer name size id =>
    obtain ⟨⟨hval, hlen⟩, hsize, hid, -⟩ := hwf
    have hsize' : size % 2 ^ 64 = size := Nat.mod_eq_of_lt hsize
    simp [Message.encode, Message.decode, List.append_assoc, readU_append,
      readStringField_append name _ hlen hval, readUuid_encode _ hid, pow256_eq, hsize']
    omega
  | FileAccept id =>
    obtain ⟨hid, -⟩ := hwf
    simp [Message.encode, Message.decode, readU_append, readUuid_encode _ hid]
  | FileReject id =>
    obtain ⟨hid, -⟩ := hwf
    simp [Message.encode, Message.decode, readU_append, readUuid_encode _ hid]
  | FileChunk id offset data =>
    obtain ⟨⟨hid, -⟩, hoff, -, hlen⟩ := hwf
    have hoff' : offset % 2 ^ 64 = offset := Nat.mod_eq_of_lt hoff
    simp [Message.encode, Message.decode, List.append_assoc, readU_append,
      readUuid_append _ _ hid, readBytesField_encode data hlen, pow256_eq, hoff']
    omega
  | FileComplete id =>
    obtain ⟨hid, -⟩ := hwf
    simp [Message.encode, Message.decode, readU_append, readUuid_encode _ hid]

/-- A sample constructible message exercising the round-trip theorem. -/
theorem message_decode_encode_witness :
    Message.decode (Message.encode
      (.FileChunk ⟨[0, 1, 2, 3, 4, 5, 6, 7, 8, 9, 10, 11, 12, 13, 14, 15]⟩ 42 [255, 0, 7])) =
    some (.FileChunk ⟨[0, 1, 2, 3, 4, 5, 6, 7, 8, 9, 10, 11, 12, 13, 14, 15]⟩ 42 [255, 0, 7]) :=
  message_decode_encode _ (by decide)

/-! ## Association-list model of the `RwLock<HashMap<..>>` tables

Each guarded `HashMap` becomes an association list with unique keys:
`insertA` replaces any existing binding (as `HashMap::insert` does),
`eraseA` drops every binding of the key (as `HashMap::remove` /
`retain`). -/

def lookupA {α β : Type} [DecidableEq α] : List (α × β) → α → Option β
  | [], _ => none
  | (k, v) :: t, k' => if k = k' then some v else lookupA t k'

def eraseA {α β : Type} [DecidableEq α] (l : List (α × β)) (k : α) : List (α × β) :=
  l.filter fun kv => decide (kv.1 ≠ k)

def insertA {α β : Type} [DecidableEq α] (l : List (α × β)) (k : α) (v : β) :
    List (α × β) :=
  (k, v) :: eraseA l k

section AListLemmas

variable {α β : Type} [DecidableEq α]

theorem lookupA_eraseA_self (l : List (α × β)) (k : α) :
    lookupA (eraseA l k) k = none := by
  induction l with
  | nil => rfl
  | cons kv t ih =>
    by_cases h : kv.1 = k
    · simpa [eraseA, h] using ih
    · obtain ⟨k', v⟩ := kv
      simp only at h
      simpa [eraseA, lookupA, h] using ih

theorem lookupA_eraseA_ne (l : List (α × β)) (k k' : α) (h : k' ≠ k) :
    lookupA (eraseA l k) k' = lookupA l k' := by
  induction l with
  | nil => rfl
  | cons kv t ih =>
    obtain ⟨k0, v⟩ := kv
    by_cases h0 : k0 = k
    · subst h0
      have hne : ¬k0 = k' := fun hx => h (hx ▸ rfl)
      simpa [eraseA, lookupA, hne] using ih
    · by_cases h1 : k0 = k'
      · simp [eraseA, lookupA, h0, h1, h]
      · simpa [eraseA, lookupA, h0, h1] using ih

@[simp] theorem lookupA_insertA_self (l : List (α × β)) (k : α) (v : β) :
    lookupA (insertA l k v) k = some v := by
  simp [insertA, lookupA]

theorem lookupA_insertA_ne (l : List (α × β)) (k k' : α) (v : β) (h : k' ≠ k) :
    lookupA (insertA l k v) k' = lookupA l k' := by
  have hne : ¬k = k' := fun hx => h hx.symm
  simp only [insertA, lookupA, if_neg hne]
  exact lookupA_eraseA_ne l k k' h

theorem mem_insertA {l : List (α × β)} {k : α} {v : β} {kv : α × β}
    (h : kv ∈ insertA l k v) : kv = (k, v) ∨ kv ∈ l := by
  rcases List.mem_cons.mp h with h1 | h1
  · exact Or.inl h1
  · exact Or.inr (List.mem_of_mem_filter h1)

theorem lookupA_eq_none_iff (l : List (α × β)) (k : α) :
    lookupA l k = none ↔ ∀ kv ∈ l, kv.1 ≠ k := by
  induction l with
  | nil => simp [lookupA]
  | cons kv t ih =>
    obtain ⟨k0, v⟩ := kv
    by_cases h0 : k0 = k <;> simp [lookupA, h0, ih]

theorem eraseA_eq_self_of_lookupA_none {l : List (α × β)} {k : α}
    (h : lookupA l k = none) : eraseA l k = l := by
  rw [lookupA_eq_none_iff] at h
  exact List.filter_eq_self.mpr fun kv hkv => by simpa using h kv hkv

theorem eraseA_eraseA (l : List (α × β)) (k : α) :
    eraseA (eraseA l k) k = eraseA l k := by
  unfold eraseA
  apply List.filter_eq_self.mpr
  intro kv hkv
  exact (List.mem_filter.mp hkv).2

@[simp] theorem eraseA_insertA (l : List (α × β)) (k : α) (v : β) :
    eraseA (insertA l k v) k = eraseA l k := by
  have h1 : eraseA ((k, v) :: eraseA l k) k = eraseA (eraseA l k) k := by
    simp [eraseA]
  exact h1.trans (eraseA_eraseA l k)

@[simp] theorem insertA_insertA (l : List (α × β)) (k : α) (v w : β) :
    insertA (insertA l k v) k w = insertA l k w := by
  show (k, w) :: eraseA (insertA l k v) k = (k, w) :: eraseA l k
  rw [eraseA_insertA]

end AListLemmas

/-! ## The transfer engine (`FileTransfer`, `src/transfer/mod.rs` lines 40–125)

The filesystem is an explicit map from paths (raw byte lists, Unix
`OsStr`) to file contents; the open destination handle of an
`InboundTransfer` is modelled by the byte list written to it so far.
`Uuid::new_v4()` results are explicit parameters. -/

/-- A filesystem path, as its raw bytes. -/
abbrev Path := List Nat

/-- The filesystem visible to the engine: path to file content, `none`
when the metadata read / open fails. -/
abbrev FileSys := Path → Option (List Nat)

/-- The spec's error taxonomy for the engine (the source uses untyped
`anyhow` errors; "Transfer not found" / "File not found" on an unknown id
map to `TransferNotFound`, filesystem failures to `IOError`). -/
inductive XferError where
  | TransferNotFound
  | IOError
deriving DecidableEq

/-- Constant `CHUNK_SIZE: usize = 65536` (64 KiB). -/
def CHUNK_SIZE : Nat := 65536

/-- An `InboundTransfer`: struct `FileReceive` with the open handle
replaced by the bytes written through it so far. -/
structure FileReceive where
  path : Path
  file : List Nat
  size : Nat
  received : Nat
deriving DecidableEq

/-- The two tracking tables of struct `FileTransfer`. -/
structure FileTransfer where
  active_sends : List (Uuid × Path)
  active_receives : List (Uuid × FileReceive)
deriving DecidableEq

/-- Function `FileTransfer::new`: both tables empty. -/
def FileTransfer.new : FileTransfer := ⟨[], []⟩

/-- The byte string `"unknown"`. -/
def unknownBytes : List Nat := [117, 110, 107, 110, 111, 119, 110]

/-- Function `Path::file_name` on Unix byte paths: the last component after
splitting on `/`, skipping empty and `.` components; `none` when there is
no component left or the last one is `..`. -/
def fileName (p : Path) : Option (List Nat) :=
  match ((p.splitOn 47).filter fun c => !c.isEmpty && c != [46]).getLast? with
  | none => none
  | some c => if c = [46, 46] then none else some c

/-- Function `FileTransfer::prepare_send`: read the file's metadata (fails with
`IOError` if unreadable), compute the display name —
`path.file_name().and_then(|n| n.to_str()).unwrap_or("unknown")` — record
`id → path` in `active_sends`, and return `(id, name, size)`. -/
def FileTransfer.prepare_send (fs : FileSys) (ft : FileTransfer) (id : Uuid)
    (path : Path) : Except XferError ((Uuid × List Nat × Nat) × FileTransfer) :=
  match fs path with
  | none => .error .IOError
  | some content =>
    let name :=
      match fileName path with
      | some nb => if validUtf8 nb then nb else unknownBytes
      | none => unknownBytes
    .ok ((id, name, content.length),
      { ft with active_sends := insertA ft.active_sends id path })

/-- Function `FileTransfer::send_chunk`: look up the tracked path (fails with
`TransferNotFound` on an unknown id), open it (fails with `IOError`),
seek to `offset`, read up to `CHUNK_SIZE` bytes, and return `none` when
zero bytes were available. -/
def FileTransfer.send_chunk (fs : FileSys) (ft : FileTransfer) (id : Uuid)
    (offset : Nat) : Except XferError (Option (List Nat)) :=
  match lookupA ft.active_sends id with
  | none => .error .TransferNotFound
  | some path =>
    match fs path with
    | none => .error .IOError
    | some content =>
      let chunk := (content.drop offset).take CHUNK_SIZE
      if chunk.isEmpty then .ok none else .ok (some chunk)

/-- The byte string `"downloads/"`, the fixed output directory prefix. -/
def downloadsPrefix : Path := [100, 111, 119, 110, 108, 111, 97, 100, 115, 47]

/-- Function `FileTransfer::prepare_receive`: derive `downloads/{name}`, create and
truncate the destination file, and register the inbound transfer with
`received = 0`. -/
def FileTransfer.prepare_receive (ft : FileTransfer) (id : Uuid)
    (name : List Nat) (size : Nat) : Path × FileTransfer :=
  let path := downloadsPrefix ++ name
  let r0 : FileReceive := ⟨path, [], size, 0⟩
  (path, { ft with active_receives := insertA ft.active_receives id r0 })

/-- Function `FileTransfer::receive_chunk`: look up the inbound transfer (fails
with `TransferNotFound` on an unknown id), append `data` to the open
handle, add `data.len()` to `received`, and report `received >= size`.
The `offset` argument is accepted but unused (`_offset` in the source). -/
def FileTransfer.receive_chunk (ft : FileTransfer) (id : Uuid) (_offset : Nat)
    (data : List Nat) : Except XferError (Bool × FileTransfer) :=
  match lookupA ft.active_receives id with
  | none => .error .TransferNotFound
  | some r =>
    let r2 : FileReceive :=
      { r with file := r.file ++ data, received := r.received + data.length }
    .ok (decide (r2.size ≤ r2.received),
      { ft with active_receives := insertA ft.active_receives id r2 })

/-- Function `FileTransfer::complete`: remove `id` from both tables; total, returns
no error. -/
def FileTransfer.complete (ft : FileTransfer) (id : Uuid) : FileTransfer :=
  { active_sends := eraseA ft.active_sends id,
    active_receives := eraseA ft.active_receives id }

deriving instance DecidableEq for Except

/-! ## Sample values used by the evaluation witnesses -/

/-- A sample 16-byte UUID. -/
def uuidA : Uuid := ⟨[0, 0, 0, 0, 0, 0, 0, 0, 0, 0, 0, 0, 0, 0, 0, 1]⟩

/-- A second, distinct sample UUID. -/
def uuidB : Uuid := ⟨[0, 0, 0, 0, 0, 0, 0, 0, 0, 0, 0, 0, 0, 0, 0, 2]⟩

/-- An engine state with one inbound transfer of declared size 2 under
`uuidA` (destination name `"x"`). -/
def sampleRecvFT : FileTransfer := (FileTransfer.new.prepare_receive uuidA [120] 2).2

/-- A one-file filesystem: the path `"a"` holds the three bytes `[1,2,3]`. -/
def sampleFS : FileSys := fun p => if p = [97] then some [1, 2, 3] else none

/-- An engine state tracking one outbound transfer of the path `"a"`
under `uuidA`. -/
def sampleSendFT : FileTransfer := ⟨[(uuidA, [97])], []⟩

/-! ## Claims about the transfer engine -/

/-- C2: `receive_chunk` fails with `TransferNotFound` exactly when the
transfer id is not registered; otherwise it succeeds, increments
`received` by exactly `data.len()` (leaving the declared size unchanged),
and returns `true` precisely when the cumulative received count after
this chunk reaches the declared size — hence `false` on every earlier
call. -/
theorem receive_chunk_spec (ft : FileTransfer) (id : Uuid) (off : Nat)
    (data : List Nat) :
    (lookupA ft.active_receives id = none ↔
      ft.receive_chunk id off data = .error .TransferNotFound) ∧
    ∀ r, lookupA ft.active_receives id = some r →
      ∃ b ft2, ft.receive_chunk id off data = .ok (b, ft2) ∧
        (b = true ↔ r.size ≤ r.received + data.length) ∧
        ∃ r2, lookupA ft2.active_receives id = some r2 ∧
          r2.received = r.received + data.length ∧ r2.size = r.size ∧
          r2.file = r.file ++ data := by
  constructor
  · constructor
    · intro h
      simp [FileTransfer.receive_chunk, h]
    · intro h
      rcases hl : lookupA ft.active_receives id with _ | r
      · rfl
      · simp [FileTransfer.receive_chunk, hl] at h
  · intro r hr
    simp only [FileTransfer.receive_chunk, hr]
    refine ⟨_, _, rfl, by simp, ?_⟩
    exact ⟨_, lookupA_insertA_self _ _ _, rfl, rfl, rfl⟩

/-- Evaluation of C2: an unknown id is rejected, and a registered
transfer of size 2 completes on a 3-byte chunk. -/
theorem receive_chunk_spec_witness :
    FileTransfer.new.receive_chunk uuidA 0 [5] = .error .TransferNotFound ∧
    ∃ b ft2, sampleRecvFT.receive_chunk uuidA 0 [7, 7, 7] = .ok (b, ft2) ∧
      (b = true ↔ (⟨downloadsPrefix ++ [120], [], 2, 0⟩ : FileReceive).size ≤
        (⟨downloadsPrefix ++ [120], [], 2, 0⟩ : FileReceive).received + [7, 7, 7].length) ∧
      ∃ r2, lookupA ft2.active_receives uuidA = some r2 ∧
        r2.received = (⟨downloadsPrefix ++ [120], [], 2, 0⟩ : FileReceive).received +
          [7, 7, 7].length ∧
        r2.size = (⟨downloadsPrefix ++ [120], [], 2, 0⟩ : FileReceive).size ∧
        r2.file = (⟨downloadsPrefix ++ [120], [], 2, 0⟩ : FileReceive).file ++ [7, 7, 7] :=
  ⟨(receive_chunk_spec FileTransfer.new uuidA 0 [5]).1.mp rfl,
   (receive_chunk_spec sampleRecvFT uuidA 0 [7, 7, 7]).2 _ (by decide)⟩

/-- C4: `receive_chunk` ignores its `offset` argument entirely, and a
transfer prepared with size 100 fed chunks of 40, 40 and 20 bytes answers
`false`, `false`, `true`, leaving the destination file equal to the
100-byte concatenation of the three chunks in call order. -/
theorem receive_chunk_offset_blind (ft : FileTransfer) (id : Uuid)
    (name : List Nat) (o1 o2 o3 : Nat) (d1 d2 d3 : List Nat)
    (h1 : d1.length = 40) (h2 : d2.length = 40) (h3 : d3.length = 20) :
    (∀ off off' data, ft.receive_chunk id off data = ft.receive_chunk id off' data) ∧
    ∃ ft1 ft2 ft3,
      ((ft.prepare_receive id name 100).2).receive_chunk id o1 d1 = .ok (false, ft1) ∧
      ft1.receive_chunk id o2 d2 = .ok (false, ft2) ∧
      ft2.receive_chunk id o3 d3 = .ok (true, ft3) ∧
      ∃ r, lookupA ft3.active_receives id = some r ∧
        r.file = d1 ++ d2 ++ d3 ∧ r.file.length = 100 := by
  refine ⟨fun off off' data => rfl,
    ⟨ft.active_sends, insertA ft.active_receives id
      ⟨downloadsPrefix ++ name, d1, 100, 40⟩⟩,
    ⟨ft.active_sends, insertA ft.active_receives id
      ⟨downloadsPrefix ++ name, d1 ++ d2, 100, 80⟩⟩,
    ⟨ft.active_sends, insertA ft.active_receives id
      ⟨downloadsPrefix ++ name, d1 ++ d2 ++ d3, 100, 100⟩⟩,
    ?_, ?_, ?_, ?_⟩
  · simp [FileTransfer.prepare_receive, FileTransfer.receive_chunk, h1]
  · simp [FileTransfer.receive_chunk, h1, h2]
  · simp [FileTransfer.receive_chunk, h1, h2, h3]
  · exact ⟨_, lookupA_insertA_self _ _ _, by simp, by simp [h1, h2, h3]⟩

/-- Evaluation of C4 on concrete 40/40/20-byte chunks. -/
theorem receive_chunk_offset_blind_witness :
    (∀ off off' data, FileTransfer.new.receive_chunk uuidA off data =
      FileTransfer.new.receive_chunk uuidA off' data) ∧
    ∃ ft1 ft2 ft3,
      ((FileTransfer.new.prepare_receive uuidA [120] 100).2).receive_chunk uuidA 9
          (List.replicate 40 1) = .ok (false, ft1) ∧
      ft1.receive_chunk uuidA 5 (List.replicate 40 2) = .ok (false, ft2) ∧
      ft2.receive_chunk uuidA 3 (List.replicate 20 3) = .ok (true, ft3) ∧
      ∃ r, lookupA ft3.active_receives uuidA = some r ∧
        r.file = List.replicate 40 1 ++ List.replicate 40 2 ++ List.replicate 20 3 ∧
        r.file.length = 100 :=
  receive_chunk_offset_blind FileTransfer.new uuidA [120] 9 5 3 _ _ _
    (by decide) (by decide) (by decide)

/-- The invariant of C5: every tracked inbound transfer satisfies
`received ≤ size`. -/
def RecvInv (ft : FileTransfer) : Prop :=
  ∀ kv ∈ ft.active_receives, (kv.2).received ≤ (kv.2).size

instance (ft : FileTransfer) : Decidable (RecvInv ft) := by
  unfold RecvInv; infer_instance

/-- C5 counterexample: the code does not clamp `received`: preparing
a transfer of declared size 2 and applying one 3-byte chunk leaves a
tracked inbound transfer with `received = 3 > 2 = size`, so the invariant
`received ≤ size` is not preserved by `receive_chunk` as the claim
states. -/
theorem received_le_size_counterexample :
    sampleRecvFT.receive_chunk uuidA 0 [7, 7, 7] =
      .ok (true, ⟨[], [(uuidA, ⟨downloadsPrefix ++ [120], [7, 7, 7], 2, 3⟩)]⟩) ∧
    ¬ RecvInv ⟨[], [(uuidA, ⟨downloadsPrefix ++ [120], [7, 7, 7], 2, 3⟩)]⟩ := by
  constructor
  · decide
  · intro h
    have h2 := h (uuidA, ⟨downloadsPrefix ++ [120], [7, 7, 7], 2, 3⟩) (by simp)
    simp at h2

/-- C5 amended: `received` starts at 0, grows by exactly the length
of each applied chunk, and stays `≤ size` provided no chunk overshoots
the declared size (the source never clamps it): the invariant holds for
the fresh engine, is preserved unconditionally by `prepare_receive`, and
is preserved by `receive_chunk` whenever the chunk keeps the cumulative
count within the declared size. -/
theorem received_le_size_amended :
    RecvInv FileTransfer.new ∧
    (∀ ft id name size, RecvInv ft → RecvInv (ft.prepare_receive id name size).2) ∧
    (∀ ft id off data b ft2, RecvInv ft →
      (∀ r, lookupA ft.active_receives id = some r →
        r.received + data.length ≤ r.size) →
      ft.receive_chunk id off data = .ok (b, ft2) → RecvInv ft2) := by
  refine ⟨?_, ?_, ?_⟩
  · intro kv hkv
    simp [FileTransfer.new] at hkv
  · intro ft id name size hft kv hkv
    rcases mem_insertA hkv with h | h
    · subst h; simp
    · exact hft kv h
  · intro ft id off data b ft2 hft hbound heq
    rcases hl : lookupA ft.active_receives id with _ | r
    · simp [FileTransfer.receive_chunk, hl] at heq
    · simp only [FileTransfer.receive_chunk, hl] at heq
      obtain ⟨-, rfl⟩ := Prod.mk.injEq .. ▸ (Except.ok.injEq .. ▸ heq)
      intro kv hkv
      rcases mem_insertA hkv with h | h
      · subst h
        simpa using hbound r hl
      · exact hft kv h

/-- Evaluation of C5 (amended): a 2-byte chunk into a size-2 transfer
keeps the invariant. -/
theorem received_le_size_amended_witness :
    RecvInv ⟨[], [(uuidA, ⟨downloadsPrefix ++ [120], [7, 7], 2, 2⟩)]⟩ :=
  received_le_size_amended.2.2 sampleRecvFT uuidA 0 [7, 7] true
    ⟨[], [(uuidA, ⟨downloadsPrefix ++ [120], [7, 7], 2, 2⟩)]⟩
    (by decide) (by decide) (by decide)

/-- C6: `send_chunk` fails with `TransferNotFound` when the id is not
in outbound tracking; otherwise, on a readable tracked file, it returns at
most `CHUNK_SIZE = 65536` bytes starting at the caller-supplied offset,
signalling end-of-file (`none`) exactly when zero bytes are available
there; on a 150000-byte file, offset 0 yields exactly 65536 bytes, offset
147456 the final 2544 bytes, and offset 150000 end-of-file. -/
theorem send_chunk_spec (fs : FileSys) (ft : FileTransfer) (id : Uuid) (off : Nat) :
    (lookupA ft.active_sends id = none →
      ft.send_chunk fs id off = .error .TransferNotFound) ∧
    ∀ path content, lookupA ft.active_sends id = some path →
      fs path = some content →
      (ft.send_chunk fs id off = .ok none ↔ content.length ≤ off) ∧
      (∀ bs, ft.send_chunk fs id off = .ok (some bs) →
        bs = (content.drop off).take CHUNK_SIZE ∧ bs.length ≤ CHUNK_SIZE) ∧
      (content.length = 150000 →
        ft.send_chunk fs id 0 = .ok (some (content.take 65536)) ∧
        (content.take 65536).length = 65536 ∧
        ft.send_chunk fs id 147456 = .ok (some (content.drop 147456)) ∧
        (content.drop 147456).length = 2544 ∧
        ft.send_chunk fs id 150000 = .ok none) := by
  constructor
  · intro h
    simp [FileTransfer.send_chunk, h]
  · intro path content hpath hcontent
    have hchunk : ∀ o : Nat, ft.send_chunk fs id o =
        (if ((content.drop o).take CHUNK_SIZE).isEmpty then .ok none
         else .ok (some ((content.drop o).take CHUNK_SIZE))) := by
      intro o
      simp [FileTransfer.send_chunk, hpath, hcontent]
    have hempty : ∀ o : Nat,
        ((content.drop o).take CHUNK_SIZE).isEmpty = true ↔ content.length ≤ o := by
      intro o
      rw [List.isEmpty_iff, List.take_eq_nil_iff, List.drop_eq_nil_iff]
      simp [CHUNK_SIZE]
    refine ⟨?_, ?_, ?_⟩
    · rw [hchunk off]
      by_cases he : ((content.drop off).take CHUNK_SIZE).isEmpty
      · simp [he, (hempty off).mp he]
      · simp only [he, if_false, Bool.false_eq_true]
        constructor
        · intro h
          simp at h
        · intro h
          exact absurd ((hempty off).mpr h) he
    · intro bs hbs
      rw [hchunk off] at hbs
      by_cases he : ((content.drop off).take CHUNK_SIZE).isEmpty
      · simp [he] at hbs
      · simp only [he, if_false, Bool.false_eq_true, Except.ok.injEq,
          Option.some.injEq] at hbs
        subst hbs
        refine ⟨rfl, ?_⟩
        rw [List.length_take]
        exact Nat.min_le_left _ _
    · intro h150
      have hlen0 : (content.take 65536).length = 65536 := by
        rw [List.length_take, h150]
        omega
      have hlen1 : (content.drop 147456).length = 2544 := by
        rw [List.length_drop, h150]
      refine ⟨?_, hlen0, ?_, hlen1, ?_⟩
      · rw [hchunk 0]
        have hne : ((content.drop 0).take CHUNK_SIZE).isEmpty = false := by
          rw [Bool.eq_false_iff]
          intro he
          have := (hempty 0).mp he
          omega
        simp only [List.drop_zero, CHUNK_SIZE] at hne ⊢
        rw [hne]
        simp
      · rw [hchunk 147456]
        have htake : (content.drop 147456).take CHUNK_SIZE = content.drop 147456 := by
          apply List.take_of_length_le
          rw [hlen1]
          norm_num [CHUNK_SIZE]
        have : ((content.drop 147456).take CHUNK_SIZE).isEmpty = false := by
          rw [Bool.eq_false_iff]
          intro he
          have := (hempty 147456).mp he
          omega
        rw [this, htake]
        simp
      · rw [hchunk 150000]
        have : ((content.drop 150000).take CHUNK_SIZE).isEmpty = true :=
          (hempty 150000).mpr (by omega)
        rw [this]
        simp

/-- Evaluation of C6: an untracked id is rejected; the tracked 3-byte file
`"a"` yields all three bytes at offset 0 and end-of-file at offset 3. -/
theorem send_chunk_spec_witness :
    FileTransfer.new.send_chunk sampleFS uuidA 0 = .error .TransferNotFound ∧
    (sampleSendFT.send_chunk sampleFS uuidA 0 = .ok none ↔ ([1, 2, 3] : List Nat).length ≤ 0) ∧
    (sampleSendFT.send_chunk sampleFS uuidA 3 = .ok none ↔ ([1, 2, 3] : List Nat).length ≤ 3) :=
  ⟨(send_chunk_spec sampleFS FileTransfer.new uuidA 0).1 rfl,
   ((send_chunk_spec sampleFS sampleSendFT uuidA 0).2 [97] [1, 2, 3] (by decide) (by decide)).1,
   ((send_chunk_spec sampleFS sampleSendFT uuidA 3).2 [97] [1, 2, 3] (by decide) (by decide)).1⟩

/-- C7: `complete` removes the id from both tracking tables
unconditionally, is idempotent (completing twice equals completing once),
and on an absent id is a no-op (and, being total, it raises no error). -/
theorem complete_spec (ft : FileTransfer) (id : Uuid) :
    lookupA (ft.complete id).active_sends id = none ∧
    lookupA (ft.complete id).active_receives id = none ∧
    (ft.complete id).complete id = ft.complete id ∧
    ((lookupA ft.active_sends id = none ∧ lookupA ft.active_receives id = none) →
      ft.complete id = ft) := by
  obtain ⟨sends, recvs⟩ := ft
  refine ⟨lookupA_eraseA_self _ _, lookupA_eraseA_self _ _, ?_, ?_⟩
  · show (⟨eraseA (eraseA sends id) id, eraseA (eraseA recvs id) id⟩ : FileTransfer) = _
    rw [eraseA_eraseA, eraseA_eraseA]
    rfl
  · rintro ⟨hs, hr⟩
    show (⟨eraseA sends id, eraseA recvs id⟩ : FileTransfer) = _
    rw [eraseA_eq_self_of_lookupA_none hs, eraseA_eq_self_of_lookupA_none hr]

/-- Evaluation of C7: completing an id absent from the fresh engine is a
no-op. -/
theorem complete_spec_witness : FileTransfer.new.complete uuidA = FileTransfer.new :=
  (complete_spec FileTransfer.new uuidA).2.2.2 ⟨rfl, rfl⟩

/-- C10: `prepare_send` succeeds for every path whose metadata is
readable: it returns the generated id, the file's byte length, and the
display name — the base name when it exists and is valid UTF-8, the
literal string `"unknown"` otherwise — and records the id in outbound
tracking. -/
theorem prepare_send_spec (fs : FileSys) (ft : FileTransfer) (id : Uuid)
    (path : Path) (content : List Nat) (h : fs path = some content) :
    ∃ name ft2,
      ft.prepare_send fs id path = .ok ((id, name, content.length), ft2) ∧
      lookupA ft2.active_sends id = some path ∧
      (match fileName path with
       | none => name = unknownBytes
       | some nb => name = if validUtf8 nb then nb else unknownBytes) := by
  refine ⟨(match fileName path with
           | some nb => if validUtf8 nb then nb else unknownBytes
           | none => unknownBytes),
          { ft with active_sends := insertA ft.active_sends id path }, ?_, ?_, ?_⟩
  · simp only [FileTransfer.prepare_send, h]
  · exact lookupA_insertA_self _ _ _
  · rcases hf : fileName path with _ | nb <;> simp [hf]

/-- Evaluation of C10 on the path `"/"`, whose base name is absent: the
call still succeeds and names the file `"unknown"`. -/
theorem prepare_send_spec_witness :
    ∃ name ft2,
      FileTransfer.new.prepare_send (fun p => if p = [47] then some [9, 9] else none)
        uuidA [47] = .ok ((uuidA, name, ([9, 9] : List Nat).length), ft2) ∧
      lookupA ft2.active_sends uuidA = some [47] ∧
      (match fileName [47] with
       | none => name = unknownBytes
       | some nb => name = if validUtf8 nb then nb else unknownBytes) :=
  prepare_send_spec (fun p => if p = [47] then some [9, 9] else none)
    FileTransfer.new uuidA [47] [9, 9] (by decide)

/-! ## The network layer (`src/network/mod.rs`)

The Peer Registry `Network.peers` is an association list keyed by peer
id.  The mDNS daemon and the sockets live outside the embedding:
`send_message` records the socket operations it would perform as an
explicit effect trace, and the discovery task becomes a fold of its event
handler over a list of `ServiceEvent`s. -/

/-- Struct `Peer` with fields id, name, addr (`src/transfer/mod.rs` lines 13–18). -/
structure Peer where
  id : Uuid
  name : String
  addr : String
deriving DecidableEq

/-- The registry `Network.peers`. -/
abbrev PeerMap := List (Uuid × Peer)

/-- The socket operations `Network::send_message` can perform, in order. -/
inductive NetEffect where
  | connect (addr : String)
  | write (bytes : List Nat)
  | flush
deriving DecidableEq

/-- The spec's error taxonomy for the sender ("Peer not found" in the
source's `anyhow` message). -/
inductive NetError where
  | PeerNotFound
deriving DecidableEq

/-- Function `Network::send_message` (lines 101–114): look the peer up in the
registry first — failing with `PeerNotFound` before any socket is touched
— then connect to the peer's address, write the 4-byte big-endian length
prefix, write the encoded frame, and flush.  The registry is only ever
read (`peers.read()`), so no component state changes; accordingly the
model returns only the effect trace and the result. -/
def send_message (peers : PeerMap) (peer_id : Uuid) (msg : Message) :
    List NetEffect × Except NetError Unit :=
  match lookupA peers peer_id with
  | none => ([], .error .PeerNotFound)
  | some peer =>
    let data := msg.encode
    ([.connect peer.addr, .write (toBEBytes 4 data.length), .write data, .flush],
     .ok ())

/-- Function `Network::list_peers` (lines 116–118): a snapshot of the registry's
values. -/
def list_peers (peers : PeerMap) : List Peer := peers.map fun kv => kv.2

/-- An mdns-sd event as consumed by the `start_discovery` task.
`resolved` carries the fresh id the handler draws from `Uuid::new_v4()`,
the service fullname, the first resolved address (when any), and the
port; `removed` carries the removed fullname; `other` stands for every
ignored event kind. -/
inductive ServiceEvent where
  | resolved (freshId : Uuid) (fullname : String) (addr : Option String) (port : Nat)
  | removed (fullname : String)
  | other

/-- One iteration of the `start_discovery` event loop (lines 50–73): on
`ServiceResolved`, build a `Peer` from a fresh id, the fullname and the
first address, and insert it unless its id equals this node's id; on
`ServiceRemoved`, retain only the entries whose name differs from the
removed fullname. -/
def discoveryStep (myId : Uuid) (peers : PeerMap) : ServiceEvent → PeerMap
  | .resolved freshId fullname addr port =>
    match addr with
    | none => peers
    | some a =>
      let peer : Peer := ⟨freshId, fullname, a ++ ":" ++ toString port⟩
      if peer.id ≠ myId then insertA peers peer.id peer else peers
  | .removed fullname => peers.filter fun kv => kv.2.name != fullname
  | .other => peers

/-! ## Claims about the network layer -/

/-- C3: `send_message` for a peer id absent from the registry fails
with `PeerNotFound` and performs no network I/O: the lookup precedes any
connection, so the effect trace is empty — no connect, no write, no
flush (and the registry, only ever read, is unchanged). -/
theorem send_message_peer_not_found (peers : PeerMap) (peer_id : Uuid)
    (msg : Message) (h : lookupA peers peer_id = none) :
    send_message peers peer_id msg = ([], .error .PeerNotFound) := by
  simp [send_message, h]

/-- Evaluation of C3 on the empty registry. -/
theorem send_message_peer_not_found_witness :
    send_message [] uuidA (.Text [104, 105]) = ([], .error .PeerNotFound) :=
  send_message_peer_not_found [] uuidA (.Text [104, 105]) rfl

/-- C8: after a peer-removed event carrying fullname `f`, the registry
holds no entry named `f` — so `list_peers` lists no such peer — while
every entry with a different name survives unchanged, and nothing new
appears. -/
theorem service_removed_spec (myId : Uuid) (peers : PeerMap) (f : String) :
    (∀ p ∈ list_peers (discoveryStep myId peers (.removed f)), p.name ≠ f) ∧
    (∀ kv ∈ peers, kv.2.name ≠ f → kv ∈ discoveryStep myId peers (.removed f)) ∧
    (∀ kv ∈ discoveryStep myId peers (.removed f), kv ∈ peers) := by
  refine ⟨?_, ?_, ?_⟩
  · intro p hp
    rcases List.mem_map.mp hp with ⟨kv, hkv, rfl⟩
    have := (List.mem_filter.mp hkv).2
    simpa using this
  · intro kv hkv hname
    exact List.mem_filter.mpr ⟨hkv, by simpa using hname⟩
  · intro kv hkv
    exact (List.mem_filter.mp hkv).1

/-- Evaluation of C8: removing `"bob"` from a two-peer registry keeps
`"alice"` and drops `"bob"`. -/
theorem service_removed_spec_witness :
    ((uuidA, ⟨uuidA, "alice", "10.0.0.5:9876"⟩) : Uuid × Peer) ∈
      discoveryStep uuidB
        [(uuidA, ⟨uuidA, "alice", "10.0.0.5:9876"⟩),
         (uuidB, ⟨uuidB, "bob", "10.0.0.6:9876"⟩)] (.removed "bob") ∧
    ∀ p ∈ list_peers (discoveryStep uuidB
        [(uuidA, ⟨uuidA, "alice", "10.0.0.5:9876"⟩),
         (uuidB, ⟨uuidB, "bob", "10.0.0.6:9876"⟩)] (.removed "bob")), p.name ≠ "bob" :=
  ⟨(service_removed_spec uuidB
      [(uuidA, ⟨uuidA, "alice", "10.0.0.5:9876"⟩),
       (uuidB, ⟨uuidB, "bob", "10.0.0.6:9876"⟩)] "bob").2.1
      (uuidA, ⟨uuidA, "alice", "10.0.0.5:9876"⟩) (by simp) (by decide),
   (service_removed_spec uuidB
      [(uuidA, ⟨uuidA, "alice", "10.0.0.5:9876"⟩),
       (uuidB, ⟨uuidB, "bob", "10.0.0.6:9876"⟩)] "bob").1⟩

/-- The resolved-peer guard preserves "no registry entry carries this
node's id" across one discovery event. -/
theorem discoveryStep_self_exclusion (myId : Uuid) (peers : PeerMap)
    (e : ServiceEvent) (h : ∀ kv ∈ peers, kv.2.id ≠ myId) :
    ∀ kv ∈ discoveryStep myId peers e, kv.2.id ≠ myId := by
  intro kv hkv
  match e with
  | .resolved freshId fullname addr port =>
    match addr with
    | none => exact h kv hkv
    | some a =>
      simp only [discoveryStep] at hkv
      by_cases hid : freshId ≠ myId
      · rw [if_pos hid] at hkv
        rcases mem_insertA hkv with h1 | h1
        · subst h1; exact hid
        · exact h kv h1
      · rw [if_neg hid] at hkv
        exact h kv hkv
  | .removed fullname =>
    exact h kv (List.mem_of_mem_filter hkv)
  | .other => exact h kv hkv

/-- C9: starting from the empty registry `Network::new` creates, no
sequence of discovery events ever leaves an entry whose peer id equals
the local node's id: the `ServiceResolved` handler inserts a peer only
after checking its id against `my_id`. -/
theorem discovery_self_exclusion (myId : Uuid) (events : List ServiceEvent) :
    ∀ kv ∈ events.foldl (discoveryStep myId) [], kv.2.id ≠ myId := by
  suffices h : ∀ (start : PeerMap), (∀ kv ∈ start, kv.2.id ≠ myId) →
      ∀ kv ∈ events.foldl (discoveryStep myId) start, kv.2.id ≠ myId by
    exact h [] (by simp)
  induction events with
  | nil => intro start hstart; exact hstart
  | cons e rest ih =>
    intro start hstart
    exact ih _ (discoveryStep_self_exclusion myId start e hstart)

/-- Evaluation of C9: after resolving the local node itself (skipped) and
a remote peer (kept), the kept entry's id differs from the local id. -/
theorem discovery_self_exclusion_witness :
    ((uuidB, ⟨uuidB, "alice", "10.0.0.5:9876"⟩) : Uuid × Peer).2.id ≠ uuidA :=
  discovery_self_exclusion uuidA
    [.resolved uuidA "self" (some "10.0.0.1") 9876,
     .resolved uuidB "alice" (some "10.0.0.5") 9876]
    (uuidB, ⟨uuidB, "alice", "10.0.0.5:9876"⟩) (by decide)

end NexusTransfer
